import Mathlib

/-!
Verification of the keyboard-driven mouse controller (`hrm.py` with tuning
constants from `config.py`).

The development shallowly embeds the controller's state machine:

* the hold-click reference counter (`_increment_hold`, `_decrement_hold`,
  `_clear_hold_state`, `_activate_hold_keysym`, ...);
* the shared intent state mutated by the key dispatchers (`on_key_press` and
  `_handle_grabbed_key_event` funnel into the same per-action transitions) and
  by `_set_mouse_mode`;
* one iteration of the movement-engine loop `_continuous_movement_loop`;
* the geometry helpers `_clamp_position` and `_animate_to_position`,
  `move_mouse_relative`, and the backend call expansion of `scroll_vertical`;
* the configuration cleaner `_normalize_token_list` (Python strings are
  modelled as lists of characters so that `str.strip` / `str.lower` are
  explicit functions).

Backend side effects (XTest fake input, subprocess calls) are modelled as
traces: counters `presses`/`releases` and the physical flag `buttonDown` for
the pointer button, and lists of emitted driver calls for moves and scrolls.
Wall-clock sleeps, threading and the X11 connection itself are outside the
embedding; a "tick" is one iteration of the movement loop body, and the
engine thread being alive is the `movement_active` flag that guards the
loop, exactly as in the source.
-/

namespace HomeRowMouse

/-- Python `int(...)` applied to a real number: truncation toward zero.
Used for `int(dx * self.acceleration)` and the animation interpolation. -/
def truncQ (q : ℚ) : ℤ := if 0 ≤ q then ⌊q⌋ else -⌊-q⌋

/-- The four navigation directions (`'up'/'down'/'left'/'right'` strings in
the source, equivalently the `DIRECTION_TO_KEY` pynput key objects stored in
`self.movement_keys`). -/
inductive Dir where
  | up | down | left | right
deriving DecidableEq, Repr

/-- The two scroll orientations stored in `self.scroll_keys`. -/
inductive SDir where
  | up | down
deriving DecidableEq, Repr

/-- State of the Hold-Click Reference Counter, plus the observable backend
effect of `press_mouse(1)` / `release_mouse(1)`: `buttonDown` is the physical
button state, `presses`/`releases` count the backend calls issued. Key
tokens (X keysyms and pynput keys) are modelled as naturals. -/
structure HoldSys where
  hold_click_refcount : ℤ
  hold_click_active : Bool
  active_hold_keysyms : Finset ℕ
  active_hold_pynput_keys : Finset ℕ
  buttonDown : Bool
  presses : ℕ
  releases : ℕ
deriving DecidableEq

/-- Initial hold state from `__init__`: refcount 0, nothing active, button up. -/
def init_hold : HoldSys :=
  { hold_click_refcount := 0, hold_click_active := false,
    active_hold_keysyms := ∅, active_hold_pynput_keys := ∅,
    buttonDown := false, presses := 0, releases := 0 }

/-- `_increment_hold`: on refcount 0 issue `press_mouse(1)` and set
`hold_click_active`; always increment the refcount (the source presses
first and then increments; the press does not read the refcount, so the
two orderings coincide). -/
def increment_hold (h : HoldSys) : HoldSys :=
  if h.hold_click_refcount = 0 then
    { h with buttonDown := true, presses := h.presses + 1, hold_click_active := true,
             hold_click_refcount := h.hold_click_refcount + 1 }
  else { h with hold_click_refcount := h.hold_click_refcount + 1 }

/-- `_decrement_hold`: no-op at refcount 0; otherwise decrement, and when
the decremented count is 0 while `hold_click_active` is set, issue
`release_mouse(1)` and clear the flag. -/
def decrement_hold (h : HoldSys) : HoldSys :=
  if h.hold_click_refcount = 0 then h
  else if h.hold_click_refcount - 1 = 0 ∧ h.hold_click_active = true then
    { h with hold_click_refcount := h.hold_click_refcount - 1, buttonDown := false,
             releases := h.releases + 1, hold_click_active := false }
  else { h with hold_click_refcount := h.hold_click_refcount - 1 }

/-- `_clear_hold_state`: release the button if it was logically held, then
zero the refcount and forget all contributing tokens. -/
def clear_hold_state (h : HoldSys) : HoldSys :=
  if h.hold_click_active = true then
    { h with buttonDown := false, releases := h.releases + 1,
             hold_click_active := false, hold_click_refcount := 0,
             active_hold_keysyms := ∅, active_hold_pynput_keys := ∅ }
  else
    { h with hold_click_active := false, hold_click_refcount := 0,
             active_hold_keysyms := ∅, active_hold_pynput_keys := ∅ }

/-- `_activate_hold_keysym`: reject unconfigured keysyms, treat an
already-active keysym as a successful no-op, otherwise record it and
increment the shared refcount. -/
def activate_hold_keysym (x_click_hold_keysyms : Finset ℕ) (keysym : ℕ)
    (h : HoldSys) : Bool × HoldSys :=
  if keysym ∉ x_click_hold_keysyms then (false, h)
  else if keysym ∈ h.active_hold_keysyms then (true, h)
  else (true, increment_hold { h with active_hold_keysyms := insert keysym h.active_hold_keysyms })

/-- `_deactivate_hold_keysym`: only a currently contributing keysym
decrements the refcount. -/
def deactivate_hold_keysym (keysym : ℕ) (h : HoldSys) : Bool × HoldSys :=
  if keysym ∉ h.active_hold_keysyms then (false, h)
  else (true, decrement_hold { h with active_hold_keysyms := h.active_hold_keysyms.erase keysym })

/-- `_activate_hold_pynput_key`, structurally identical to the keysym path. -/
def activate_hold_pynput_key (pynput_click_hold_keys : Finset ℕ) (key : ℕ)
    (h : HoldSys) : Bool × HoldSys :=
  if key ∉ pynput_click_hold_keys then (false, h)
  else if key ∈ h.active_hold_pynput_keys then (true, h)
  else (true, increment_hold { h with active_hold_pynput_keys := insert key h.active_hold_pynput_keys })

/-- `_deactivate_hold_pynput_key`. -/
def deactivate_hold_pynput_key (key : ℕ) (h : HoldSys) : Bool × HoldSys :=
  if key ∉ h.active_hold_pynput_keys then (false, h)
  else (true, decrement_hold { h with active_hold_pynput_keys := h.active_hold_pynput_keys.erase key })

/-- The hold-related events a run of the program can perform: press/release
of a configured hold token on either feed, and the forced clear performed
when mouse mode turns off. -/
inductive HoldOp where
  | actK (keysym : ℕ)
  | deactK (keysym : ℕ)
  | actP (key : ℕ)
  | deactP (key : ℕ)
  | clearOp
deriving DecidableEq, Repr

/-- One hold-subsystem step, dispatching a `HoldOp` to the embedded source
functions (the returned booleans only steer caller-side suppression). -/
def apply_hold_op (cfgK cfgP : Finset ℕ) (h : HoldSys) : HoldOp → HoldSys
  | .actK k => (activate_hold_keysym cfgK k h).2
  | .deactK k => (deactivate_hold_keysym k h).2
  | .actP k => (activate_hold_pynput_key cfgP k h).2
  | .deactP k => (deactivate_hold_pynput_key k h).2
  | .clearOp => clear_hold_state h

/-- Run a sequence of hold operations from the initial state. -/
def run_hold (cfgK cfgP : Finset ℕ) (ops : List HoldOp) : HoldSys :=
  ops.foldl (fun h op => apply_hold_op cfgK cfgP h op) init_hold

/-- The hold-click invariant: the refcount never goes negative, the physical
button is down exactly when the refcount is positive, and the internal
`hold_click_active` flag tracks the physical state. -/
def HoldInv (h : HoldSys) : Prop :=
  0 ≤ h.hold_click_refcount
  ∧ (h.buttonDown = true ↔ 0 < h.hold_click_refcount)
  ∧ h.hold_click_active = h.buttonDown

/-- Tunables read from `config.py` (`MOVE_SPEED`, `CTRL_LEAP_DISTANCE`,
`ACCELERATION`, `SCROLL_STEP`). -/
structure Cfg where
  move_speed : ℤ
  ctrl_leap_distance : ℤ
  acceleration : ℚ
  scroll_step : ℤ
deriving DecidableEq, Repr

/-- The shipped `config.py` values. -/
def cfg_default : Cfg :=
  { move_speed := 2, ctrl_leap_distance := 10, acceleration := 3 / 2, scroll_step := 1 }

/-- Logical Pointer Driver calls issued by the controller layer
(`move_mouse_relative` requests and `scroll_vertical` requests). -/
inductive Call where
  | moveRel (dx dy : ℤ)
  | scrollV (clicks : ℤ)
deriving DecidableEq, Repr

/-- Controller state shared by the two event feeds and the movement engine.
`movement_active` is the flag guarding the movement thread's loop;
`threads_started` counts how many times `_start_continuous_movement`
actually spawned a movement thread; `calls` is the trace of logical driver
calls. -/
structure Ctrl where
  mouse_mode : Bool
  ctrl_pressed : Bool
  movement_keys : Finset Dir
  scroll_keys : Finset SDir
  movement_active : Bool
  threads_started : ℕ
  key_grab_active : Bool
  hold : HoldSys
  calls : List Call
deriving DecidableEq

/-- Startup state from `__init__`: mouse mode off, no intents, engine stopped. -/
def init_ctrl : Ctrl :=
  { mouse_mode := false, ctrl_pressed := false, movement_keys := ∅, scroll_keys := ∅,
    movement_active := false, threads_started := 0, key_grab_active := false,
    hold := init_hold, calls := [] }

/-- Per-tick step distance: `ctrl_leap_distance if self.ctrl_pressed else
move_speed` (shared by `_move_single_step` and the movement loop). -/
def move_distance (cfg : Cfg) (ctrl_pressed : Bool) : ℤ :=
  if ctrl_pressed then cfg.ctrl_leap_distance else cfg.move_speed

/-- Accumulated x displacement of the loop `for key in self.movement_keys`:
each held direction contributes its signed distance once (left negative,
right positive). -/
def raw_dx (cfg : Cfg) (ctrl_pressed : Bool) (keys : Finset Dir) : ℤ :=
  (if Dir.left ∈ keys then -(move_distance cfg ctrl_pressed) else 0)
  + (if Dir.right ∈ keys then move_distance cfg ctrl_pressed else 0)

/-- Accumulated y displacement of the same loop (up negative, down positive). -/
def raw_dy (cfg : Cfg) (ctrl_pressed : Bool) (keys : Finset Dir) : ℤ :=
  (if Dir.up ∈ keys then -(move_distance cfg ctrl_pressed) else 0)
  + (if Dir.down ∈ keys then move_distance cfg ctrl_pressed else 0)

/-- The movement computation of one engine tick: the accumulated `(dx, dy)`,
with `int(dx * self.acceleration)` / `int(dy * self.acceleration)` applied
when both components are nonzero (diagonal movement). -/
def movement_delta (cfg : Cfg) (ctrl_pressed : Bool) (keys : Finset Dir) : ℤ × ℤ :=
  let dx := raw_dx cfg ctrl_pressed keys
  let dy := raw_dy cfg ctrl_pressed keys
  if dx ≠ 0 ∧ dy ≠ 0 then
    (truncQ ((dx : ℚ) * cfg.acceleration), truncQ ((dy : ℚ) * cfg.acceleration))
  else (dx, dy)

/-- The scroll `direction` accumulator of the loop: `+1` if `'up'` is held,
`-1` if `'down'` is held. -/
def scroll_net (scrolls : Finset SDir) : ℤ :=
  (if SDir.up ∈ scrolls then 1 else 0) + (if SDir.down ∈ scrolls then -1 else 0)

/-- Driver calls issued by one iteration of `_continuous_movement_loop`'s
body: skip when mouse mode is off or no intent is held; scroll (and skip the
movement computation) when a scroll key is held with nonzero net direction;
otherwise emit the combined relative move if it is nonzero. -/
def tick_calls (cfg : Cfg) (s : Ctrl) : List Call :=
  if s.mouse_mode = false then []
  else if s.movement_keys = ∅ ∧ s.scroll_keys = ∅ then []
  else if s.scroll_keys ≠ ∅ ∧ scroll_net s.scroll_keys ≠ 0 then
    [Call.scrollV (cfg.scroll_step * scroll_net s.scroll_keys)]
  else
    let p := movement_delta cfg s.ctrl_pressed s.movement_keys
    if p ≠ (0, 0) then [Call.moveRel p.1 p.2] else []

/-- One pass of the movement thread: the loop body runs only while
`movement_active` is set (`while self.movement_active and self.running`). -/
def engine_tick (cfg : Cfg) (s : Ctrl) : Ctrl :=
  if s.movement_active = true then { s with calls := s.calls ++ tick_calls cfg s } else s

/-- `_start_continuous_movement`: spawn the movement thread only when it is
not already running AND some navigation key is held
(`if not self.movement_active and self.movement_keys:`). -/
def start_continuous_movement (s : Ctrl) : Ctrl :=
  if s.movement_active = false ∧ s.movement_keys ≠ ∅ then
    { s with movement_active := true, threads_started := s.threads_started + 1 }
  else s

/-- `_stop_continuous_movement`: clear the loop flag. -/
def stop_continuous_movement (s : Ctrl) : Ctrl :=
  { s with movement_active := false }

/-- `_set_mouse_mode`: no-op when already in the requested state; enabling
grabs the navigation keys; disabling clears both intent sets, stops the
engine, clears the hold state and releases the grabs. -/
def set_mouse_mode (enabled : Bool) (s : Ctrl) : Ctrl :=
  if s.mouse_mode = enabled then s
  else if enabled then { s with mouse_mode := true, key_grab_active := true }
  else
    { s with mouse_mode := false, movement_keys := ∅, scroll_keys := ∅,
             movement_active := false, hold := clear_hold_state s.hold,
             key_grab_active := false }

/-- `_move_single_step`: the immediate one-step move performed on a
navigation key press (guarded by mouse mode; distance by modifier state). -/
def single_step_calls (cfg : Cfg) (s : Ctrl) (d : Dir) : List Call :=
  if s.mouse_mode = false then []
  else
    let dist := move_distance cfg s.ctrl_pressed
    let dxy : ℤ × ℤ :=
      match d with
      | .up => (0, -dist)
      | .down => (0, dist)
      | .left => (-dist, 0)
      | .right => (dist, 0)
    if dxy.1 ≠ 0 ∨ dxy.2 ≠ 0 then [Call.moveRel dxy.1 dxy.2] else []

/-- The intent/engine part of a navigation press: add the direction if new
and call `_start_continuous_movement`
(`if key_equivalent not in self.movement_keys: ... add ... start`). -/
def nav_press_state (d : Dir) (s : Ctrl) : Ctrl :=
  if d ∈ s.movement_keys then s
  else start_continuous_movement { s with movement_keys := insert d s.movement_keys }

/-- The navigation-press transition shared by `on_key_press` and
`_handle_grabbed_key_event` (reached with mouse mode on): the intent/engine
update above, then always the immediate `_move_single_step`. -/
def on_nav_press (cfg : Cfg) (d : Dir) (s : Ctrl) : Ctrl :=
  { nav_press_state d s with
      calls := (nav_press_state d s).calls ++ single_step_calls cfg (nav_press_state d s) d }

/-- The scroll-press transition shared by both feeds (reached with mouse
mode on): add the orientation and call `_start_continuous_movement`. -/
def on_scroll_press (sd : SDir) (s : Ctrl) : Ctrl :=
  start_continuous_movement { s with scroll_keys := insert sd s.scroll_keys }

/-- `_clamp_position` (after its lazy screen-geometry refresh): coordinates
are forced non-negative, and additionally below the screen bounds when both
dimensions are known (positive). -/
def clamp_position (screen_width screen_height x y : ℤ) : ℤ × ℤ :=
  let clamped_x := if 0 ≤ x then x else 0
  let clamped_y := if 0 ≤ y then y else 0
  if 0 < screen_width ∧ 0 < screen_height then
    (if screen_width ≤ clamped_x then screen_width - 1 else clamped_x,
     if screen_height ≤ clamped_y then screen_height - 1 else clamped_y)
  else (clamped_x, clamped_y)

/-- Observable steps of `_animate_to_position`: direct sub-moves and the
inter-step `time.sleep(self.animation_delay)` pauses. -/
inductive AnimEvent where
  | move (x y : ℤ)
  | delay
deriving DecidableEq, Repr

/-- `int(start + (end - start) * progress)` with `progress = i / steps`. -/
def interp_coord (start target : ℤ) (i steps : ℕ) : ℤ :=
  truncQ ((start : ℚ) + ((target - start : ℤ) : ℚ) * ((i : ℚ) / (steps : ℚ)))

/-- `_animate_to_position`: for `i` in `1..animation_steps`, move directly
to the linearly interpolated point, sleeping between non-final steps
(`if i < self.animation_steps`). -/
def animate_to_position (sx sy ex ey : ℤ) (steps : ℕ) : List AnimEvent :=
  (List.range steps).flatMap (fun k =>
    AnimEvent.move (interp_coord sx ex (k + 1) steps) (interp_coord sy ey (k + 1) steps)
    :: (if k + 1 < steps then [AnimEvent.delay] else []))

/-- Projection of an animation trace to the issued move targets. -/
def moves_of (evs : List AnimEvent) : List (ℤ × ℤ) :=
  evs.filterMap (fun e =>
    match e with
    | .move x y => some (x, y)
    | .delay => none)

/-- Number of inter-step pauses in an animation trace. -/
def delays_of (evs : List AnimEvent) : ℕ :=
  (evs.filter (fun e => e = AnimEvent.delay)).length

/-- `move_mouse_relative` on the xlib backend, starting from the cached
position `(cx, cy)` with screen bounds `(w, h)`: without smoothing, one
direct move to the clamped target; with smoothing, the animated trace from
the cached position to the clamped target. -/
def move_mouse_relative_events (smooth : Bool) (steps : ℕ)
    (w h cx cy dx dy : ℤ) : List AnimEvent :=
  if smooth = false then
    [AnimEvent.move (clamp_position w h (cx + dx) (cy + dy)).1
                    (clamp_position w h (cx + dx) (cy + dy)).2]
  else
    animate_to_position cx cy (clamp_position w h (cx + dx) (cy + dy)).1
      (clamp_position w h (cx + dx) (cy + dy)).2 steps

/-- Backend selection state relevant to `scroll_vertical`. -/
inductive Backend where
  | xlib | xdotool | xinput
deriving DecidableEq, Repr

/-- Environment facts probed in `__init__` that `scroll_vertical` consults. -/
structure DrvEnv where
  is_wayland : Bool
  ydotool_available : Bool
  backend : Backend
deriving DecidableEq, Repr

/-- Low-level backend events `scroll_vertical` can emit: a ydotool repeat
click, XTest button press/release pairs, or an xdotool repeat click. -/
inductive LowCall where
  | ydotool_click_repeat (rep button : ℕ)
  | fake_button_press (button : ℕ)
  | fake_button_release (button : ℕ)
  | xdotool_click_repeat (rep button : ℕ)
deriving DecidableEq, Repr

/-- `scroll_vertical`: early return on 0 clicks; otherwise `repeat =
abs(int(clicks))` presses of wheel button 4 (up) or 5 (down) through the
preferred channel. The source never writes any instance field here, so the
controller state is threaded through unchanged. -/
def scroll_vertical (env : DrvEnv) (s : Ctrl) (clicks : ℤ) : Ctrl × List LowCall :=
  if clicks = 0 then (s, [])
  else
    let rep := clicks.natAbs
    let button : ℕ := if 0 < clicks then 4 else 5
    if env.is_wayland = true ∧ env.ydotool_available = true then
      (s, [LowCall.ydotool_click_repeat rep button])
    else
      match env.backend with
      | .xlib =>
          (s, (List.range rep).flatMap
                (fun _ => [LowCall.fake_button_press button, LowCall.fake_button_release button]))
      | .xdotool => (s, [LowCall.xdotool_click_repeat rep button])
      | .xinput => (s, [LowCall.xdotool_click_repeat rep button])

/-- Python strings for the token cleaner, modelled as character lists. -/
abbrev PyStr := List Char

/-- `str.strip` of leading whitespace. -/
def trim_left (s : PyStr) : PyStr := s.dropWhile fun c => c.isWhitespace

/-- `str.strip` of trailing whitespace. -/
def trim_right (s : PyStr) : PyStr := (s.reverse.dropWhile fun c => c.isWhitespace).reverse

/-- Python `str.strip()`. -/
def pystrip (s : PyStr) : PyStr := trim_right (trim_left s)

/-- Python `str.lower()`. -/
def pylower (s : PyStr) : PyStr := s.map Char.toLower

/-- The shapes of the `tokens` argument of `_normalize_token_list`: `None`,
a single string, an iterable of items (each `None` or rendered by `str`),
or a non-iterable scalar rendered by `str`. -/
inductive TokenInput where
  | noneVal
  | strVal (s : PyStr)
  | iterVal (items : List (Option PyStr))
  | scalarVal (s : PyStr)

/-- The `raw` list built by `_normalize_token_list`: `None` is replaced by
the fallback, a string becomes a one-element list, an iterable is listed,
and a non-iterable scalar (where `list(tokens)` raises `TypeError`) becomes
a one-element list. -/
def raw_tokens : TokenInput → List PyStr → List (Option PyStr)
  | .noneVal, fallback => fallback.map some
  | .strVal s, _ => [some s]
  | .iterVal items, _ => items
  | .scalarVal s, _ => [some s]

/-- The cleaning loop of `_normalize_token_list`: skip `None` items, strip,
skip empties, and keep the first occurrence of each lowercased key with its
original casing (`seen` is the set of keys already taken). -/
def clean_tokens : List (Option PyStr) → List PyStr → List PyStr
  | [], _ => []
  | none :: rest, seen => clean_tokens rest seen
  | some item :: rest, seen =>
      let text := pystrip item
      if text = [] then clean_tokens rest seen
      else
        let key := pylower text
        if key ∈ seen then clean_tokens rest seen
        else text :: clean_tokens rest (key :: seen)

/-- `_normalize_token_list`: return the cleaned list when non-empty,
otherwise `list(fallback)` verbatim. -/
def normalize_token_list (tokens : TokenInput) (fallback : List PyStr) : List PyStr :=
  if clean_tokens (raw_tokens tokens fallback) [] ≠ [] then
    clean_tokens (raw_tokens tokens fallback) []
  else fallback

theorem truncQ_intCast (n : ℤ) : truncQ (n : ℚ) = n := by
  unfold truncQ
  split
  · exact Int.floor_intCast n
  · rw [show (-(n : ℚ)) = ((-n : ℤ) : ℚ) by push_cast; ring, Int.floor_intCast]
    ring

theorem hold_inv_init : HoldInv init_hold := by
  refine ⟨le_refl 0, ?_, rfl⟩
  simp [init_hold]

theorem increment_at_zero (h : HoldSys) (hz : h.hold_click_refcount = 0) :
    increment_hold h
      = { h with buttonDown := true, presses := h.presses + 1, hold_click_active := true,
                 hold_click_refcount := h.hold_click_refcount + 1 } := by
  unfold increment_hold
  rw [if_pos hz]

theorem increment_at_pos (h : HoldSys) (hz : ¬ h.hold_click_refcount = 0) :
    increment_hold h = { h with hold_click_refcount := h.hold_click_refcount + 1 } := by
  unfold increment_hold
  rw [if_neg hz]

theorem decrement_at_zero (h : HoldSys) (hz : h.hold_click_refcount = 0) :
    decrement_hold h = h := by
  unfold decrement_hold
  rw [if_pos hz]

theorem decrement_at_one (h : HoldSys) (hrc : h.hold_click_refcount = 1)
    (ha : h.hold_click_active = true) :
    decrement_hold h
      = { h with hold_click_refcount := h.hold_click_refcount - 1, buttonDown := false,
                 releases := h.releases + 1, hold_click_active := false } := by
  unfold decrement_hold
  rw [if_neg (by omega), if_pos ⟨by omega, ha⟩]

theorem decrement_above_one (h : HoldSys) (hrc : 1 < h.hold_click_refcount) :
    decrement_hold h = { h with hold_click_refcount := h.hold_click_refcount - 1 } := by
  unfold decrement_hold
  rw [if_neg (by omega), if_neg (fun hx => by omega)]

theorem decrement_inactive (h : HoldSys) (hrc : ¬ h.hold_click_refcount = 0)
    (ha : h.hold_click_active = false) :
    decrement_hold h = { h with hold_click_refcount := h.hold_click_refcount - 1 } := by
  unfold decrement_hold
  rw [if_neg hrc, if_neg (fun hx => by rw [ha] at hx; exact absurd hx.2 (by decide))]

theorem clear_at_active (h : HoldSys) (ha : h.hold_click_active = true) :
    clear_hold_state h
      = { h with buttonDown := false, releases := h.releases + 1,
                 hold_click_active := false, hold_click_refcount := 0,
                 active_hold_keysyms := ∅, active_hold_pynput_keys := ∅ } := by
  unfold clear_hold_state
  rw [if_pos ha]

theorem clear_at_inactive (h : HoldSys) (ha : h.hold_click_active = false) :
    clear_hold_state h
      = { h with hold_click_active := false, hold_click_refcount := 0,
                 active_hold_keysyms := ∅, active_hold_pynput_keys := ∅ } := by
  unfold clear_hold_state
  rw [if_neg (by rw [ha]; exact fun hx => absurd hx (by decide))]

theorem hold_inv_increment (h : HoldSys) (hi : HoldInv h) : HoldInv (increment_hold h) := by
  obtain ⟨h0, h1, h2⟩ := hi
  by_cases hz : h.hold_click_refcount = 0
  · rw [increment_at_zero h hz]
    refine ⟨?_, ?_, ?_⟩
    · show (0 : ℤ) ≤ h.hold_click_refcount + 1
      omega
    · show true = true ↔ 0 < h.hold_click_refcount + 1
      constructor
      · intro _
        omega
      · intro _
        rfl
    · rfl
  · rw [increment_at_pos h hz]
    refine ⟨?_, ?_, ?_⟩
    · show (0 : ℤ) ≤ h.hold_click_refcount + 1
      omega
    · show h.buttonDown = true ↔ 0 < h.hold_click_refcount + 1
      rw [h1]
      constructor
      · intro _
        omega
      · intro _
        omega
    · exact h2

theorem hold_inv_decrement (h : HoldSys) (hi : HoldInv h) : HoldInv (decrement_hold h) := by
  obtain ⟨h0, h1, h2⟩ := hi
  rcases lt_trichotomy h.hold_click_refcount 1 with hlt | heq | hgt
  · rw [decrement_at_zero h (by omega)]
    exact ⟨h0, h1, h2⟩
  · have hb : h.buttonDown = true := h1.mpr (by omega)
    have ha : h.hold_click_active = true := h2.trans hb
    rw [decrement_at_one h heq ha]
    refine ⟨?_, ?_, ?_⟩
    · show (0 : ℤ) ≤ h.hold_click_refcount - 1
      omega
    · show false = true ↔ 0 < h.hold_click_refcount - 1
      constructor
      · intro hx
        exact absurd hx (by decide)
      · intro hx
        omega
    · rfl
  · have hb : h.buttonDown = true := h1.mpr (by omega)
    rw [decrement_above_one h hgt]
    refine ⟨?_, ?_, ?_⟩
    · show (0 : ℤ) ≤ h.hold_click_refcount - 1
      omega
    · show h.buttonDown = true ↔ 0 < h.hold_click_refcount - 1
      rw [hb]
      constructor
      · intro _
        omega
      · intro _
        rfl
    · exact h2

theorem hold_inv_clear (h : HoldSys) (hi : HoldInv h) : HoldInv (clear_hold_state h) := by
  obtain ⟨h0, h1, h2⟩ := hi
  cases ha : h.hold_click_active with
  | true =>
      rw [clear_at_active h ha]
      refine ⟨le_refl 0, ?_, rfl⟩
      show false = true ↔ (0 : ℤ) < 0
      constructor
      · intro hx
        exact absurd hx (by decide)
      · intro hx
        exact absurd hx (lt_irrefl 0)
  | false =>
      rw [clear_at_inactive h ha]
      have hb : h.buttonDown = false := h2.symm.trans ha
      refine ⟨le_refl 0, ?_, ?_⟩
      · show h.buttonDown = true ↔ (0 : ℤ) < 0
        rw [hb]
        constructor
        · intro hx
          exact absurd hx (by decide)
        · intro hx
          exact absurd hx (lt_irrefl 0)
      · show false = h.buttonDown
        exact hb.symm

theorem hold_inv_apply (cfgK cfgP : Finset ℕ) (h : HoldSys) (op : HoldOp) (hi : HoldInv h) :
    HoldInv (apply_hold_op cfgK cfgP h op) := by
  cases op with
  | actK k =>
      simp only [apply_hold_op, activate_hold_keysym]
      by_cases ha : k ∉ cfgK
      · rw [if_pos ha]
        exact hi
      · rw [if_neg ha]
        by_cases hb : k ∈ h.active_hold_keysyms
        · rw [if_pos hb]
          exact hi
        · rw [if_neg hb]
          exact hold_inv_increment _ ⟨hi.1, hi.2.1, hi.2.2⟩
  | deactK k =>
      simp only [apply_hold_op, deactivate_hold_keysym]
      by_cases ha : k ∉ h.active_hold_keysyms
      · rw [if_pos ha]
        exact hi
      · rw [if_neg ha]
        exact hold_inv_decrement _ ⟨hi.1, hi.2.1, hi.2.2⟩
  | actP k =>
      simp only [apply_hold_op, activate_hold_pynput_key]
      by_cases ha : k ∉ cfgP
      · rw [if_pos ha]
        exact hi
      · rw [if_neg ha]
        by_cases hb : k ∈ h.active_hold_pynput_keys
        · rw [if_pos hb]
          exact hi
        · rw [if_neg hb]
          exact hold_inv_increment _ ⟨hi.1, hi.2.1, hi.2.2⟩
  | deactP k =>
      simp only [apply_hold_op, deactivate_hold_pynput_key]
      by_cases ha : k ∉ h.active_hold_pynput_keys
      · rw [if_pos ha]
        exact hi
      · rw [if_neg ha]
        exact hold_inv_decrement _ ⟨hi.1, hi.2.1, hi.2.2⟩
  | clearOp =>
      simp only [apply_hold_op]
      exact hold_inv_clear _ hi

theorem hold_inv_run (cfgK cfgP : Finset ℕ) (ops : List HoldOp) :
    HoldInv (run_hold cfgK cfgP ops) := by
  have hgen : ∀ (l : List HoldOp) (h : HoldSys), HoldInv h →
      HoldInv (l.foldl (fun h op => apply_hold_op cfgK cfgP h op) h) := by
    intro l
    induction l with
    | nil => intro h hi; simpa using hi
    | cons op rest ih =>
        intro h hi
        simp only [List.foldl_cons]
        exact ih _ (hold_inv_apply cfgK cfgP h op hi)
  exact hgen ops init_hold hold_inv_init

theorem hold_counters_step (cfgK cfgP : Finset ℕ) (h : HoldSys) (op : HoldOp)
    (hi : HoldInv h) :
    ((apply_hold_op cfgK cfgP h op).presses
      = h.presses + (if h.hold_click_refcount = 0
          ∧ 0 < (apply_hold_op cfgK cfgP h op).hold_click_refcount then 1 else 0))
    ∧ ((apply_hold_op cfgK cfgP h op).releases
      = h.releases + (if 0 < h.hold_click_refcount
          ∧ (apply_hold_op cfgK cfgP h op).hold_click_refcount = 0 then 1 else 0)) := by
  obtain ⟨h0, h1, h2⟩ := hi
  cases op with
  | actK k =>
      simp only [apply_hold_op, activate_hold_keysym]
      by_cases ha : k ∉ cfgK
      · simp only [if_pos ha]
        exact ⟨by rw [if_neg (by omega)]; rfl, by rw [if_neg (by omega)]; rfl⟩
      · simp only [if_neg ha]
        by_cases hb : k ∈ h.active_hold_keysyms
        · simp only [if_pos hb]
          exact ⟨by rw [if_neg (by omega)]; rfl, by rw [if_neg (by omega)]; rfl⟩
        · simp only [if_neg hb]
          by_cases hz : h.hold_click_refcount = 0
          · simp only [increment_at_zero
              { h with active_hold_keysyms := insert k h.active_hold_keysyms } hz]
            exact ⟨by rw [if_pos ⟨hz, by omega⟩], by rw [if_neg (by omega)]; rfl⟩
          · simp only [increment_at_pos
              { h with active_hold_keysyms := insert k h.active_hold_keysyms } hz]
            exact ⟨by rw [if_neg (by omega)]; rfl, by rw [if_neg (by omega)]; rfl⟩
  | deactK k =>
      simp only [apply_hold_op, deactivate_hold_keysym]
      by_cases ha : k ∉ h.active_hold_keysyms
      · simp only [if_pos ha]
        exact ⟨by rw [if_neg (by omega)]; rfl, by rw [if_neg (by omega)]; rfl⟩
      · simp only [if_neg ha]
        rcases lt_trichotomy h.hold_click_refcount 1 with hlt | heq | hgt
        · have hz0 : h.hold_click_refcount = 0 := by omega
          simp only [decrement_at_zero
              { h with active_hold_keysyms := h.active_hold_keysyms.erase k } hz0]
          exact ⟨by rw [if_neg (by omega)]; rfl, by rw [if_neg (by omega)]; rfl⟩
        · have hb2 : h.buttonDown = true := h1.mpr (by omega)
          have ha2 : h.hold_click_active = true := h2.trans hb2
          simp only [decrement_at_one
              { h with active_hold_keysyms := h.active_hold_keysyms.erase k } heq ha2]
          exact ⟨by rw [if_neg (by omega)]; rfl, by rw [if_pos ⟨by omega, by omega⟩]⟩
        · simp only [decrement_above_one
              { h with active_hold_keysyms := h.active_hold_keysyms.erase k } hgt]
          exact ⟨by rw [if_neg (by omega)]; rfl, by rw [if_neg (by omega)]; rfl⟩
  | actP k =>
      simp only [apply_hold_op, activate_hold_pynput_key]
      by_cases ha : k ∉ cfgP
      · simp only [if_pos ha]
        exact ⟨by rw [if_neg (by omega)]; rfl, by rw [if_neg (by omega)]; rfl⟩
      · simp only [if_neg ha]
        by_cases hb : k ∈ h.active_hold_pynput_keys
        · simp only [if_pos hb]
          exact ⟨by rw [if_neg (by omega)]; rfl, by rw [if_neg (by omega)]; rfl⟩
        · simp only [if_neg hb]
          by_cases hz : h.hold_click_refcount = 0
          · simp only [increment_at_zero
              { h with active_hold_pynput_keys := insert k h.active_hold_pynput_keys } hz]
            exact ⟨by rw [if_pos ⟨hz, by omega⟩], by rw [if_neg (by omega)]; rfl⟩
          · simp only [increment_at_pos
              { h with active_hold_pynput_keys := insert k h.active_hold_pynput_keys } hz]
            exact ⟨by rw [if_neg (by omega)]; rfl, by rw [if_neg (by omega)]; rfl⟩
  | deactP k =>
      simp only [apply_hold_op, deactivate_hold_pynput_key]
      by_cases ha : k ∉ h.active_hold_pynput_keys
      · simp only [if_pos ha]
        exact ⟨by rw [if_neg (by omega)]; rfl, by rw [if_neg (by omega)]; rfl⟩
      · simp only [if_neg ha]
        rcases lt_trichotomy h.hold_click_refcount 1 with hlt | heq | hgt
        · have hz0 : h.hold_click_refcount = 0 := by omega
          simp only [decrement_at_zero
              { h with active_hold_pynput_keys := h.active_hold_pynput_keys.erase k } hz0]
          exact ⟨by rw [if_neg (by omega)]; rfl, by rw [if_neg (by omega)]; rfl⟩
        · have hb2 : h.buttonDown = true := h1.mpr (by omega)
          have ha2 : h.hold_click_active = true := h2.trans hb2
          simp only [decrement_at_one
              { h with active_hold_pynput_keys := h.active_hold_pynput_keys.erase k } heq ha2]
          exact ⟨by rw [if_neg (by omega)]; rfl, by rw [if_pos ⟨by omega, by omega⟩]⟩
        · simp only [decrement_above_one
              { h with active_hold_pynput_keys := h.active_hold_pynput_keys.erase k } hgt]
          exact ⟨by rw [if_neg (by omega)]; rfl, by rw [if_neg (by omega)]; rfl⟩
  | clearOp =>
      simp only [apply_hold_op]
      by_cases hpos : 0 < h.hold_click_refcount
      · have ha2 : h.hold_click_active = true := h2.trans (h1.mpr hpos)
        simp only [clear_at_active h ha2]
        exact ⟨by rw [if_neg (by omega)]; rfl, by rw [if_pos ⟨hpos, trivial⟩]⟩
      · have hb2 : h.buttonDown = false := by
          cases hbd : h.buttonDown with
          | true => exact absurd (h1.mp hbd) hpos
          | false => rfl
        have ha2 : h.hold_click_active = false := h2.trans hb2
        simp only [clear_at_inactive h ha2]
        exact ⟨by rw [if_neg (by omega)]; rfl, by rw [if_neg (by omega)]; rfl⟩

/-- Claim C2: the hold-click refcount is never negative in any state
reachable from startup, and the pointer button is physically pressed iff
the refcount is positive; the backend press is issued exactly on the
0-to-positive transition and the backend release exactly on the
positive-to-0 transition; pressing two distinct hold-bound tokens and
releasing one keeps the button held with no release issued, and releasing
both issues exactly one release call (and exactly one press in total). -/
theorem hold_refcount_correct :
    (∀ (cfgK cfgP : Finset ℕ) (ops : List HoldOp),
      0 ≤ (run_hold cfgK cfgP ops).hold_click_refcount
      ∧ ((run_hold cfgK cfgP ops).buttonDown = true
          ↔ 0 < (run_hold cfgK cfgP ops).hold_click_refcount))
    ∧ (∀ (cfgK cfgP : Finset ℕ) (h : HoldSys) (op : HoldOp), HoldInv h →
        ((apply_hold_op cfgK cfgP h op).presses
          = h.presses + (if h.hold_click_refcount = 0
              ∧ 0 < (apply_hold_op cfgK cfgP h op).hold_click_refcount then 1 else 0))
        ∧ ((apply_hold_op cfgK cfgP h op).releases
          = h.releases + (if 0 < h.hold_click_refcount
              ∧ (apply_hold_op cfgK cfgP h op).hold_click_refcount = 0 then 1 else 0)))
    ∧ ((run_hold {1, 2} ∅ [HoldOp.actK 1, HoldOp.actK 2, HoldOp.deactK 1]).buttonDown = true
        ∧ (run_hold {1, 2} ∅ [HoldOp.actK 1, HoldOp.actK 2, HoldOp.deactK 1]).releases = 0
        ∧ (run_hold {1, 2} ∅
            [HoldOp.actK 1, HoldOp.actK 2, HoldOp.deactK 1, HoldOp.deactK 2]).buttonDown = false
        ∧ (run_hold {1, 2} ∅
            [HoldOp.actK 1, HoldOp.actK 2, HoldOp.deactK 1, HoldOp.deactK 2]).releases = 1
        ∧ (run_hold {1, 2} ∅
            [HoldOp.actK 1, HoldOp.actK 2, HoldOp.deactK 1, HoldOp.deactK 2]).presses = 1) := by
  refine ⟨?_, ?_, ?_⟩
  · intro cfgK cfgP ops
    obtain ⟨h0, h1, h2⟩ := hold_inv_run cfgK cfgP ops
    exact ⟨h0, h1⟩
  · intro cfgK cfgP h op hi
    exact hold_counters_step cfgK cfgP h op hi
  · decide

/-- Witness for C2 at a concrete state and operation. -/
theorem hold_refcount_correct_witness :
    (apply_hold_op ({1} : Finset ℕ) ∅ init_hold (HoldOp.actK 1)).presses
      = init_hold.presses + (if init_hold.hold_click_refcount = 0
          ∧ 0 < (apply_hold_op ({1} : Finset ℕ) ∅ init_hold (HoldOp.actK 1)).hold_click_refcount
          then 1 else 0) :=
  (hold_refcount_correct.2.1 {1} ∅ init_hold (HoldOp.actK 1) ⟨by decide, by decide, by decide⟩).1


/-- Claim C7: position clamping returns component-wise max with 0 when a
screen dimension is unknown (0); with both dimensions positive it lands in
the screen rectangle and leaves in-range coordinates unchanged. -/
theorem clamp_position_correct :
    (∀ (w hh x y : ℤ), (w = 0 ∨ hh = 0) → clamp_position w hh x y = (max x 0, max y 0))
    ∧ (∀ (w hh x y : ℤ), 0 < w → 0 < hh →
        (0 ≤ (clamp_position w hh x y).1 ∧ (clamp_position w hh x y).1 ≤ w - 1
          ∧ 0 ≤ (clamp_position w hh x y).2 ∧ (clamp_position w hh x y).2 ≤ hh - 1)
        ∧ (0 ≤ x → x ≤ w - 1 → 0 ≤ y → y ≤ hh - 1 → clamp_position w hh x y = (x, y))) := by
  constructor
  · intro w hh x y hwh
    simp only [clamp_position]
    rw [if_neg (by omega), Prod.mk.injEq]
    constructor <;> (split_ifs <;> omega)
  · intro w hh x y hw hh2
    constructor
    · simp only [clamp_position]
      rw [if_pos ⟨hw, hh2⟩]
      refine ⟨?_, ?_, ?_, ?_⟩ <;> (dsimp only; split_ifs <;> omega)
    · intro hx1 hx2 hy1 hy2
      simp only [clamp_position]
      rw [if_pos ⟨hw, hh2⟩, Prod.mk.injEq]
      constructor <;> (split_ifs <;> omega)

/-- Witness for C7 at a concrete out-of-range point on a known screen. -/
theorem clamp_position_correct_witness :
    0 ≤ (clamp_position 1920 1080 2000 (-5)).1
    ∧ (clamp_position 1920 1080 2000 (-5)).1 ≤ 1920 - 1 :=
  ⟨((clamp_position_correct.2 1920 1080 2000 (-5) (by norm_num) (by norm_num)).1).1,
   ((clamp_position_correct.2 1920 1080 2000 (-5) (by norm_num) (by norm_num)).1).2.1⟩

/-- Claim C5: on a tick with a non-empty scroll set and nonzero net
direction, the loop issues exactly the scroll call `scroll_step * net` and
no relative move, even when navigation keys are also held. -/
theorem scroll_preempts_movement (cfg : Cfg) (s : Ctrl)
    (hm : s.mouse_mode = true) (hs : s.scroll_keys ≠ ∅)
    (hn : scroll_net s.scroll_keys ≠ 0) :
    tick_calls cfg s = [Call.scrollV (cfg.scroll_step * scroll_net s.scroll_keys)]
    ∧ ∀ (dx dy : ℤ), Call.moveRel dx dy ∉ tick_calls cfg s := by
  have ht : tick_calls cfg s = [Call.scrollV (cfg.scroll_step * scroll_net s.scroll_keys)] := by
    unfold tick_calls
    rw [if_neg (by rw [hm]; decide), if_neg (fun hx => hs hx.2), if_pos ⟨hs, hn⟩]
  refine ⟨ht, ?_⟩
  intro dx dy
  rw [ht]
  simp

/-- Witness for C5: scroll-up held together with a navigation key. -/
theorem scroll_preempts_movement_witness :
    tick_calls cfg_default
      { mouse_mode := true, ctrl_pressed := false, movement_keys := {Dir.left},
        scroll_keys := {SDir.up}, movement_active := true, threads_started := 1,
        key_grab_active := true, hold := init_hold, calls := [] }
      = [Call.scrollV (cfg_default.scroll_step * scroll_net {SDir.up})] :=
  (scroll_preempts_movement cfg_default _ rfl (by decide) (by decide)).1

/-- Claim C3: on a tick with no scroll intent, the emitted displacement is
the per-direction signed sum at distance `ctrl_leap_distance`/`move_speed`,
with both components scaled by the acceleration factor and truncated toward
zero exactly when both are nonzero; single held directions move one axis by
the plain distance with no acceleration. -/
theorem movement_delta_formula (cfg : Cfg) :
    (∀ (s : Ctrl), s.mouse_mode = true → s.scroll_keys = ∅ → s.movement_keys ≠ ∅ →
      tick_calls cfg s
        = (if movement_delta cfg s.ctrl_pressed s.movement_keys ≠ (0, 0)
            then [Call.moveRel (movement_delta cfg s.ctrl_pressed s.movement_keys).1
                    (movement_delta cfg s.ctrl_pressed s.movement_keys).2]
            else []))
    ∧ (∀ (b : Bool) (keys : Finset Dir),
        (raw_dx cfg b keys ≠ 0 → raw_dy cfg b keys ≠ 0 →
          movement_delta cfg b keys
            = (truncQ ((raw_dx cfg b keys : ℚ) * cfg.acceleration),
               truncQ ((raw_dy cfg b keys : ℚ) * cfg.acceleration)))
        ∧ (raw_dx cfg b keys = 0 ∨ raw_dy cfg b keys = 0 →
            movement_delta cfg b keys = (raw_dx cfg b keys, raw_dy cfg b keys)))
    ∧ (∀ (b : Bool),
        movement_delta cfg b {Dir.up} = (0, -(move_distance cfg b))
        ∧ movement_delta cfg b {Dir.down} = (0, move_distance cfg b)
        ∧ movement_delta cfg b {Dir.left} = (-(move_distance cfg b), 0)
        ∧ movement_delta cfg b {Dir.right} = (move_distance cfg b, 0)) := by
  refine ⟨?_, ?_, ?_⟩
  · intro s hm hsc hmk
    unfold tick_calls
    rw [if_neg (by rw [hm]; decide), if_neg (fun hx => hmk hx.1),
        if_neg (fun hx => absurd hsc hx.1)]
  · intro b keys
    constructor
    · intro hdx hdy
      simp only [movement_delta]
      rw [if_pos ⟨hdx, hdy⟩]
    · intro hd
      simp only [movement_delta]
      rw [if_neg (by
        rcases hd with hd | hd
        · exact fun hx => absurd hd hx.1
        · exact fun hx => absurd hd hx.2)]
  · intro b
    refine ⟨?_, ?_, ?_, ?_⟩ <;>
      simp [movement_delta, raw_dx, raw_dy]

/-- Witness for C3: the spec scenario `move_speed=2`, `left+up`, no ctrl,
acceleration 1.5, yielding the truncated diagonal `(-3, -3)`. -/
theorem movement_delta_formula_witness :
    movement_delta cfg_default false {Dir.left, Dir.up} = (-3, -3) := by
  have hdx : raw_dx cfg_default false {Dir.left, Dir.up} = -2 := by decide
  have hdy : raw_dy cfg_default false {Dir.left, Dir.up} = -2 := by decide
  have h := ((movement_delta_formula cfg_default).2.1 false {Dir.left, Dir.up}).1
      (by rw [hdx]; decide) (by rw [hdy]; decide)
  rw [h, hdx, hdy]
  have hacc : cfg_default.acceleration = 3 / 2 := rfl
  rw [hacc]
  have hq : ((-2 : ℤ) : ℚ) * (3 / 2) = ((-3 : ℤ) : ℚ) := by norm_num
  rw [hq, truncQ_intCast]

/-- Claim C6: a repeat press of an already-held navigation key leaves the
direction set unchanged and starts no second engine instance; the engine is
started only when it is not already active. -/
theorem nav_press_idempotent :
    (∀ (cfg : Cfg) (d : Dir) (s : Ctrl), d ∈ s.movement_keys →
      (on_nav_press cfg d s).movement_keys = s.movement_keys
      ∧ (on_nav_press cfg d s).movement_active = s.movement_active
      ∧ (on_nav_press cfg d s).threads_started = s.threads_started)
    ∧ (∀ (s : Ctrl), s.movement_active = true → start_continuous_movement s = s) := by
  constructor
  · intro cfg d s hd
    unfold on_nav_press nav_press_state
    rw [if_pos hd]
    exact ⟨rfl, rfl, rfl⟩
  · intro s ha
    unfold start_continuous_movement
    rw [if_neg (fun hx => absurd (ha.symm.trans hx.1) (by decide))]

/-- Witness for C6: repeat press of an already-held left key. -/
theorem nav_press_idempotent_witness :
    (on_nav_press cfg_default Dir.left
      { mouse_mode := true, ctrl_pressed := false, movement_keys := {Dir.left},
        scroll_keys := ∅, movement_active := true, threads_started := 1,
        key_grab_active := true, hold := init_hold, calls := [] }).movement_keys
      = {Dir.left}
    ∧ (on_nav_press cfg_default Dir.left
      { mouse_mode := true, ctrl_pressed := false, movement_keys := {Dir.left},
        scroll_keys := ∅, movement_active := true, threads_started := 1,
        key_grab_active := true, hold := init_hold, calls := [] }).threads_started = 1 :=
  ⟨(nav_press_idempotent.1 cfg_default Dir.left _ (by decide)).1,
   (nav_press_idempotent.1 cfg_default Dir.left _ (by decide)).2.2⟩

/-- Claim C4: turning mouse mode off clears both intent sets, stops the
engine, forces the hold refcount to 0 releasing the button exactly when it
was held, and releases key interception; disabling while already off is a
no-op. -/
theorem mouse_mode_off_clears :
    (∀ (s : Ctrl), s.mouse_mode = true → s.hold.hold_click_active = s.hold.buttonDown →
      (set_mouse_mode false s).movement_keys = ∅
      ∧ (set_mouse_mode false s).scroll_keys = ∅
      ∧ (set_mouse_mode false s).movement_active = false
      ∧ (set_mouse_mode false s).hold.hold_click_refcount = 0
      ∧ (set_mouse_mode false s).hold.hold_click_active = false
      ∧ (set_mouse_mode false s).hold.buttonDown = false
      ∧ (set_mouse_mode false s).hold.releases
          = s.hold.releases + (if s.hold.buttonDown = true then 1 else 0)
      ∧ (set_mouse_mode false s).key_grab_active = false
      ∧ (set_mouse_mode false s).mouse_mode = false)
    ∧ (∀ (s : Ctrl), s.mouse_mode = false → set_mouse_mode false s = s) := by
  constructor
  · intro s hm hab
    unfold set_mouse_mode
    rw [if_neg (by rw [hm]; decide), if_neg (by decide)]
    cases hba : s.hold.hold_click_active with
    | true =>
        have hbd : s.hold.buttonDown = true := hab.symm.trans hba
        rw [clear_at_active s.hold hba, if_pos hbd]
        exact ⟨rfl, rfl, rfl, rfl, rfl, rfl, rfl, rfl, rfl⟩
    | false =>
        have hbd : s.hold.buttonDown = false := hab.symm.trans hba
        rw [clear_at_inactive s.hold hba, if_neg (by rw [hbd]; decide)]
        exact ⟨rfl, rfl, rfl, rfl, rfl, hbd, rfl, rfl, rfl⟩
  · intro s hm
    unfold set_mouse_mode
    rw [if_pos hm]

/-- Witness for C4 at a concrete state holding the button with one token. -/
theorem mouse_mode_off_clears_witness :
    (set_mouse_mode false
      { mouse_mode := true, ctrl_pressed := false, movement_keys := {Dir.left},
        scroll_keys := {SDir.up}, movement_active := true, threads_started := 1,
        key_grab_active := true,
        hold := { hold_click_refcount := 1, hold_click_active := true,
                  active_hold_keysyms := {5}, active_hold_pynput_keys := ∅,
                  buttonDown := true, presses := 1, releases := 0 },
        calls := [] }).movement_active = false
    ∧ (set_mouse_mode false
      { mouse_mode := true, ctrl_pressed := false, movement_keys := {Dir.left},
        scroll_keys := {SDir.up}, movement_active := true, threads_started := 1,
        key_grab_active := true,
        hold := { hold_click_refcount := 1, hold_click_active := true,
                  active_hold_keysyms := {5}, active_hold_pynput_keys := ∅,
                  buttonDown := true, presses := 1, releases := 0 },
        calls := [] }).hold.hold_click_refcount = 0 :=
  ⟨(mouse_mode_off_clears.1 _ rfl rfl).2.2.1,
   (mouse_mode_off_clears.1 _ rfl rfl).2.2.2.1⟩

/-- Claim C1 (code evaluation): pressing a scroll-up-bound key while mouse
mode is on and no navigation key is held adds `up` to the scroll set, but
`_start_continuous_movement` declines to start the engine because
`self.movement_keys` is empty, so three tick intervals later no scroll call
has been issued; the loop body itself would have produced `scroll_step * 1`
had the engine been running. -/
theorem scroll_press_from_rest_no_engine :
    (on_scroll_press SDir.up (set_mouse_mode true init_ctrl)).scroll_keys = {SDir.up}
    ∧ (on_scroll_press SDir.up (set_mouse_mode true init_ctrl)).movement_active = false
    ∧ (on_scroll_press SDir.up (set_mouse_mode true init_ctrl)).threads_started = 0
    ∧ (engine_tick cfg_default (engine_tick cfg_default (engine_tick cfg_default
        (on_scroll_press SDir.up (set_mouse_mode true init_ctrl))))).calls = []
    ∧ tick_calls cfg_default (on_scroll_press SDir.up (set_mouse_mode true init_ctrl))
        = [Call.scrollV 1] := by
  refine ⟨?_, ?_, ?_, ?_, ?_⟩ <;> decide

/-- Claim C10: `scroll_vertical` with 0 clicks returns before any backend
work: no backend call is emitted and the controller state is unchanged. -/
theorem scroll_vertical_zero_noop :
    ∀ (env : DrvEnv) (s : Ctrl), scroll_vertical env s 0 = (s, []) := by
  intro env s
  unfold scroll_vertical
  rw [if_pos rfl]


theorem flatMap_congr_mem (l : List ℕ) (f g : ℕ → List AnimEvent)
    (h : ∀ a ∈ l, f a = g a) : l.flatMap f = l.flatMap g := by
  induction l with
  | nil => rfl
  | cons a t ih =>
      simp only [List.flatMap_cons]
      rw [h a (by simp), ih (fun b hb => h b (by simp [hb]))]

theorem animate_to_position_succ (sx sy ex ey : ℤ) (n : ℕ) :
    animate_to_position sx sy ex ey (n + 1)
      = ((List.range n).flatMap (fun k =>
          [AnimEvent.move (interp_coord sx ex (k + 1) (n + 1)) (interp_coord sy ey (k + 1) (n + 1)),
           AnimEvent.delay]))
        ++ [AnimEvent.move (interp_coord sx ex (n + 1) (n + 1))
              (interp_coord sy ey (n + 1) (n + 1))] := by
  unfold animate_to_position
  rw [List.range_succ, List.flatMap_append]
  congr 1
  · apply flatMap_congr_mem
    intro k hk
    have hkn : k < n := List.mem_range.mp hk
    rw [if_pos (by omega)]
  · simp only [List.flatMap_cons, List.flatMap_nil, List.append_nil]
    rw [if_neg (lt_irrefl (n + 1))]

theorem moves_of_flatMap (l : List ℕ) (f g : ℕ → ℤ) (p : ℕ → Prop) [DecidablePred p] :
    moves_of (l.flatMap (fun k =>
      AnimEvent.move (f k) (g k) :: (if p k then [AnimEvent.delay] else [])))
      = l.map (fun k => (f k, g k)) := by
  induction l with
  | nil => rfl
  | cons a t ih =>
      unfold moves_of at ih ⊢
      by_cases hp : p a <;>
        simp only [List.flatMap_cons, hp, ite_true, ite_false,
          List.filterMap_append, List.filterMap_cons, List.filterMap_nil, List.map_cons] <;>
        rw [ih] <;> rfl

theorem delays_of_flatMap (l : List ℕ) (f g : ℕ → ℤ) :
    delays_of (l.flatMap (fun k => [AnimEvent.move (f k) (g k), AnimEvent.delay])) = l.length := by
  induction l with
  | nil => rfl
  | cons a t ih =>
      simp only [List.flatMap_cons, delays_of, List.filter_append, List.length_append,
        List.filter_cons, List.filter_nil] at ih ⊢
      simp only [show (AnimEvent.move (f a) (g a) = AnimEvent.delay) = False from by simp,
        show (AnimEvent.delay = AnimEvent.delay) = True from by simp]
      simp [ih]
      omega

theorem interp_coord_last (s e : ℤ) (n : ℕ) (hn : 1 ≤ n) : interp_coord s e n n = e := by
  unfold interp_coord
  have hne : ((n : ℚ)) ≠ 0 := Nat.cast_ne_zero.mpr (by omega)
  rw [div_self hne, mul_one,
    show ((s : ℚ) + ((e - s : ℤ) : ℚ)) = ((e : ℤ) : ℚ) from by push_cast; ring]
  exact truncQ_intCast e

/-- Claim C8: with smoothing and `animation_steps ≥ 1`, the animated move
issues exactly `animation_steps` direct moves to the points interpolated at
progress `i/steps`, with a delay only between non-final steps, and the final
issued point is the (clamped) target; without smoothing the full delta is a
single direct move to the clamped target. -/
theorem animate_interpolation (sx sy ex ey : ℤ) (steps : ℕ) (hs : 1 ≤ steps) :
    moves_of (animate_to_position sx sy ex ey steps)
      = (List.range steps).map
          (fun k => (interp_coord sx ex (k + 1) steps, interp_coord sy ey (k + 1) steps))
    ∧ (moves_of (animate_to_position sx sy ex ey steps)).length = steps
    ∧ animate_to_position sx sy ex ey steps
        = ((List.range (steps - 1)).flatMap (fun k =>
            [AnimEvent.move (interp_coord sx ex (k + 1) steps) (interp_coord sy ey (k + 1) steps),
             AnimEvent.delay]))
          ++ [AnimEvent.move (interp_coord sx ex steps steps) (interp_coord sy ey steps steps)]
    ∧ delays_of (animate_to_position sx sy ex ey steps) = steps - 1
    ∧ interp_coord sx ex steps steps = ex ∧ interp_coord sy ey steps steps = ey
    ∧ (∀ (smooth : Bool) (w hh cx cy dx dy : ℤ), smooth = false →
        move_mouse_relative_events smooth steps w hh cx cy dx dy
          = [AnimEvent.move (clamp_position w hh (cx + dx) (cy + dy)).1
              (clamp_position w hh (cx + dx) (cy + dy)).2])
    ∧ (∀ (w hh cx cy dx dy : ℤ),
        move_mouse_relative_events true steps w hh cx cy dx dy
          = animate_to_position cx cy (clamp_position w hh (cx + dx) (cy + dy)).1
              (clamp_position w hh (cx + dx) (cy + dy)).2 steps) := by
  obtain ⟨n, rfl⟩ : ∃ n, steps = n + 1 := ⟨steps - 1, by omega⟩
  have hstruct := animate_to_position_succ sx sy ex ey n
  refine ⟨?_, ?_, ?_, ?_, ?_, ?_, ?_, ?_⟩
  · unfold animate_to_position
    exact moves_of_flatMap (List.range (n + 1)) _ _ (fun k => k + 1 < n + 1)
  · unfold animate_to_position
    rw [moves_of_flatMap (List.range (n + 1)) _ _ (fun k => k + 1 < n + 1)]
    rw [List.length_map, List.length_range]
  · simpa using hstruct
  · rw [hstruct]
    unfold delays_of
    rw [List.filter_append]
    rw [show List.filter (fun e => e = AnimEvent.delay)
        [AnimEvent.move (interp_coord sx ex (n + 1) (n + 1))
          (interp_coord sy ey (n + 1) (n + 1))] = [] from by simp [List.filter_cons]]
    rw [List.append_nil]
    have := delays_of_flatMap (List.range n)
      (fun k => interp_coord sx ex (k + 1) (n + 1)) (fun k => interp_coord sy ey (k + 1) (n + 1))
    unfold delays_of at this
    rw [this, List.length_range]
    omega
  · exact interp_coord_last sx ex (n + 1) hs
  · exact interp_coord_last sy ey (n + 1) hs
  · intro smooth w hh cx cy dx dy hsm
    unfold move_mouse_relative_events
    rw [if_pos hsm]
  · intro w hh cx cy dx dy
    unfold move_mouse_relative_events
    rw [if_neg (by decide)]

/-- Witness for C8: the final interpolated point with 2 steps is the target. -/
theorem animate_interpolation_witness : interp_coord 0 10 2 2 = 10 :=
  (animate_interpolation 0 0 10 4 2 (by norm_num)).2.2.2.2.1


theorem dropWhile_head_not (p : Char → Bool) :
    ∀ (l : List Char) (a : Char), (l.dropWhile p).head? = some a → p a = false := by
  intro l
  induction l with
  | nil =>
      intro a ha
      simp [List.dropWhile] at ha
  | cons b t ih =>
      intro a ha
      cases hpb : p b with
      | true =>
          rw [List.dropWhile_cons, if_pos hpb] at ha
          exact ih a ha
      | false =>
          rw [List.dropWhile_cons, if_neg (by rw [hpb]; decide)] at ha
          simp only [List.head?_cons, Option.some.injEq] at ha
          rw [← ha]
          exact hpb

theorem dropWhile_eq_self_of_head (p : Char → Bool) (l : List Char)
    (h : ∀ a, l.head? = some a → p a = false) : l.dropWhile p = l := by
  cases l with
  | nil => rfl
  | cons b t =>
      rw [List.dropWhile_cons, if_neg (by rw [h b rfl]; decide)]

theorem dropWhile_append_char (p : Char → Bool) (l₁ l₂ : List Char) :
    (l₁ ++ l₂).dropWhile p
      = if l₁.dropWhile p = [] then l₂.dropWhile p else l₁.dropWhile p ++ l₂ := by
  induction l₁ with
  | nil => simp
  | cons a t ih =>
      cases hpa : p a with
      | true => simp [List.dropWhile_cons, hpa, ih]
      | false => simp [List.dropWhile_cons, hpa]

theorem trim_left_head (l : PyStr) (a : Char) (ha : (trim_left l).head? = some a) :
    a.isWhitespace = false :=
  dropWhile_head_not _ l a ha

theorem trim_right_head (l : PyStr) (a : Char) (ha : l.head? = some a) :
    trim_right l = [] ∨ ∃ r, trim_right l = a :: r := by
  cases l with
  | nil => simp at ha
  | cons b t =>
      simp only [List.head?_cons, Option.some.injEq] at ha
      rw [← ha]
      unfold trim_right
      rw [show (b :: t).reverse = t.reverse ++ [b] from by simp, dropWhile_append_char]
      by_cases hz : t.reverse.dropWhile (fun c => c.isWhitespace) = []
      · rw [if_pos hz]
        cases hwb : b.isWhitespace with
        | true =>
            left
            simp [List.dropWhile_cons, hwb]
        | false =>
            right
            exact ⟨[], by simp [List.dropWhile_cons, hwb]⟩
      · rw [if_neg hz]
        right
        exact ⟨(t.reverse.dropWhile (fun c => c.isWhitespace)).reverse, by simp⟩

theorem trim_right_getLast (l : PyStr) (a : Char) (ha : (trim_right l).getLast? = some a) :
    a.isWhitespace = false := by
  unfold trim_right at ha
  rw [List.getLast?_reverse] at ha
  exact dropWhile_head_not _ l.reverse a ha

theorem pystrip_head (l : PyStr) (a : Char) (ha : (pystrip l).head? = some a) :
    a.isWhitespace = false := by
  unfold pystrip at ha
  cases hl : trim_left l with
  | nil =>
      rw [hl] at ha
      simp [trim_right] at ha
  | cons b t =>
      have hwb : b.isWhitespace = false := trim_left_head l b (by rw [hl]; rfl)
      rw [hl] at ha
      rcases trim_right_head (b :: t) b rfl with hz | ⟨r, hr⟩
      · rw [hz] at ha
        simp at ha
      · rw [hr] at ha
        simp only [List.head?_cons, Option.some.injEq] at ha
        rw [← ha]
        exact hwb

theorem pystrip_getLast (l : PyStr) (a : Char) (ha : (pystrip l).getLast? = some a) :
    a.isWhitespace = false := by
  unfold pystrip at ha
  exact trim_right_getLast (trim_left l) a ha

theorem pystrip_of_clean (l : PyStr)
    (hh : ∀ a, l.head? = some a → a.isWhitespace = false)
    (hl : ∀ a, l.getLast? = some a → a.isWhitespace = false) :
    pystrip l = l := by
  unfold pystrip trim_left trim_right
  rw [dropWhile_eq_self_of_head _ l hh,
      dropWhile_eq_self_of_head _ l.reverse
        (fun a ha => hl a (by rwa [List.head?_reverse] at ha)),
      List.reverse_reverse]

theorem pystrip_idem (l : PyStr) : pystrip (pystrip l) = pystrip l :=
  pystrip_of_clean _ (pystrip_head l) (pystrip_getLast l)

theorem clean_tokens_mem :
    ∀ (raw : List (Option PyStr)) (seen : List PyStr) (s : PyStr),
      s ∈ clean_tokens raw seen →
      s ≠ [] ∧ (∃ t, some t ∈ raw ∧ s = pystrip t) ∧ pylower s ∉ seen := by
  intro raw
  induction raw with
  | nil =>
      intro seen s hs
      exact absurd hs (by simp [clean_tokens])
  | cons o rest ih =>
      intro seen s hs
      cases o with
      | none =>
          simp only [clean_tokens] at hs
          obtain ⟨h1, ⟨t, ht, hst⟩, h3⟩ := ih seen s hs
          exact ⟨h1, ⟨t, by simp [ht], hst⟩, h3⟩
      | some item =>
          simp only [clean_tokens] at hs
          by_cases he : pystrip item = []
          · rw [if_pos he] at hs
            obtain ⟨h1, ⟨t, ht, hst⟩, h3⟩ := ih seen s hs
            exact ⟨h1, ⟨t, by simp [ht], hst⟩, h3⟩
          · rw [if_neg he] at hs
            by_cases hk : pylower (pystrip item) ∈ seen
            · rw [if_pos hk] at hs
              obtain ⟨h1, ⟨t, ht, hst⟩, h3⟩ := ih seen s hs
              exact ⟨h1, ⟨t, by simp [ht], hst⟩, h3⟩
            · rw [if_neg hk] at hs
              rcases List.mem_cons.mp hs with rfl | hs2
              · exact ⟨he, ⟨item, by simp, rfl⟩, hk⟩
              · obtain ⟨h1, ⟨t, ht, hst⟩, h3⟩ := ih _ s hs2
                exact ⟨h1, ⟨t, by simp [ht], hst⟩,
                  fun hx => h3 (List.mem_cons_of_mem _ hx)⟩

theorem clean_tokens_pairwise :
    ∀ (raw : List (Option PyStr)) (seen : List PyStr),
      List.Pairwise (fun a b => pylower a ≠ pylower b) (clean_tokens raw seen) := by
  intro raw
  induction raw with
  | nil => intro seen; simp [clean_tokens]
  | cons o rest ih =>
      intro seen
      cases o with
      | none =>
          simp only [clean_tokens]
          exact ih seen
      | some item =>
          simp only [clean_tokens]
          by_cases he : pystrip item = []
          · rw [if_pos he]
            exact ih seen
          · rw [if_neg he]
            by_cases hk : pylower (pystrip item) ∈ seen
            · rw [if_pos hk]
              exact ih seen
            · rw [if_neg hk]
              refine List.Pairwise.cons ?_ (ih _)
              intro b hb
              have h3 := (clean_tokens_mem rest _ b hb).2.2
              intro hx
              exact h3 (by rw [← hx]; exact List.mem_cons_self _ _)

theorem clean_tokens_sublist :
    ∀ (raw : List (Option PyStr)) (seen : List PyStr),
      List.Sublist (clean_tokens raw seen)
        (raw.filterMap (fun o => Option.map pystrip o)) := by
  intro raw
  induction raw with
  | nil => intro seen; simp [clean_tokens]
  | cons o rest ih =>
      intro seen
      cases o with
      | none =>
          simp only [clean_tokens, List.filterMap_cons, Option.map_none]
          exact ih seen
      | some item =>
          simp only [clean_tokens, List.filterMap_cons, Option.map_some]
          by_cases he : pystrip item = []
          · rw [if_pos he]
            exact List.Sublist.cons _ (ih seen)
          · rw [if_neg he]
            by_cases hk : pylower (pystrip item) ∈ seen
            · rw [if_pos hk]
              exact List.Sublist.cons _ (ih seen)
            · rw [if_neg hk]
              exact List.Sublist.cons₂ _ (ih _)

/-- Claim C9 (amended): given a non-empty fallback, normalization always
returns a non-empty list; every token that survives cleaning is non-empty
and stripped, survivors are pairwise distinct after lowercasing and appear
in input order with their original casing (a sublist of the stripped raw
items); when at least one token survives the survivors are returned, and
when none survives the fallback is returned verbatim (with no cleaning
guarantees). -/
theorem normalize_token_list_amended :
    ∀ (tokens : TokenInput) (fallback : List PyStr), fallback ≠ [] →
      normalize_token_list tokens fallback ≠ []
      ∧ (∀ s ∈ clean_tokens (raw_tokens tokens fallback) [], s ≠ [] ∧ pystrip s = s)
      ∧ List.Pairwise (fun a b => pylower a ≠ pylower b)
          (clean_tokens (raw_tokens tokens fallback) [])
      ∧ List.Sublist (clean_tokens (raw_tokens tokens fallback) [])
          ((raw_tokens tokens fallback).filterMap (fun o => Option.map pystrip o))
      ∧ (clean_tokens (raw_tokens tokens fallback) [] ≠ [] →
          normalize_token_list tokens fallback
            = clean_tokens (raw_tokens tokens fallback) [])
      ∧ (clean_tokens (raw_tokens tokens fallback) [] = [] →
          normalize_token_list tokens fallback = fallback) := by
  intro tokens fallback hfb
  refine ⟨?_, ?_, ?_, ?_, ?_, ?_⟩
  · unfold normalize_token_list
    split_ifs with hc
    · exact hc
    · exact hfb
  · intro s hs
    obtain ⟨h1, ⟨t, ht, hst⟩, h3⟩ := clean_tokens_mem _ _ s hs
    refine ⟨h1, ?_⟩
    rw [hst]
    exact pystrip_idem t
  · exact clean_tokens_pairwise _ _
  · exact clean_tokens_sublist _ _
  · intro hne
    unfold normalize_token_list
    rw [if_pos hne]
  · intro heq
    unfold normalize_token_list
    rw [if_neg (fun hx => hx heq)]

/-- Witness for C9 (amended) on a concrete configured binding list. -/
theorem normalize_token_list_amended_witness :
    normalize_token_list (TokenInput.strVal ("Up".toList)) ["i".toList] ≠ [] :=
  (normalize_token_list_amended (TokenInput.strVal ("Up".toList)) ["i".toList] (by decide)).1

/-- Counterexample to C9 as stated: with the empty iterable as input and
the non-empty fallback `[" a"]`, nothing survives cleaning, so the fallback
is returned verbatim and the result contains an entry that is not stripped. -/
theorem normalize_token_list_counterexample :
    ([" a".toList] : List PyStr) ≠ []
    ∧ normalize_token_list (TokenInput.iterVal []) [" a".toList] = [" a".toList]
    ∧ ∃ s ∈ normalize_token_list (TokenInput.iterVal []) [" a".toList], pystrip s ≠ s := by
  refine ⟨by decide, by decide, ?_⟩
  exact ⟨" a".toList, by decide, by decide⟩

end HomeRowMouse
